import Mathlib

/-!
Verification of the himschat retrieval-and-streaming pipeline.

This file gives a shallow embedding of the core of `src/index.ts`:

* a model of JSON values and of the host runtime's `JSON.parse`
  (restricted to the JSON fragment this worker exchanges),
* the SSE relay loop (`fetch`, lines 148-187): the accumulating buffer,
  the blank-line-delimited segment extraction, the `event:`/`data:` line
  scan, and the three-way event filter,
* the bounded KV pagination and scoring loop (lines 62-97) together with
  `cosineSim` (lines 213-219), the sort/filter/slice ranking, and the
  handler's error/refusal responses (`sseText`/`sseError`).

Numeric vector arithmetic is idealised over `ℝ` (the source uses JS
doubles); counters, strings and control flow are modelled exactly.
-/

namespace Rag

/-! ## JSON values and a model of the host `JSON.parse` -/

/-- JSON values as produced by the host runtime's `JSON.parse`.
Numbers are modelled as rationals (the source holds JS doubles). -/
inductive Json where
  | null
  | bool (b : Bool)
  | num (q : Rat)
  | str (s : String)
  | arr (elems : List Json)
  | obj (fields : List (String × Json))
deriving Repr

/-- JS member access `o.k` for a non-null value: field lookup on objects
(with the last duplicate key winning, as in `JSON.parse`), `undefined`
(modelled `none`) on every non-object. -/
def Json.getField : Json → String → Option Json
  | .obj fields, k => fields.foldl (fun acc f => if f.1 = k then some f.2 else acc) none
  | _, _ => none

/-- JS truthiness of a parsed JSON value. -/
def Json.truthy : Json → Bool
  | .null => false
  | .bool b => b
  | .num q => q ≠ 0
  | .str s => s ≠ ""
  | .arr _ => true
  | .obj _ => true

/-- Truthiness of a possibly-`undefined` member access. -/
def truthyOpt : Option Json → Bool
  | none => false
  | some j => j.truthy

/-- JSON whitespace characters. -/
def isJsonWs (c : Char) : Bool :=
  c = ' ' || c = '\t' || c = '\n' || c = '\r'

/-- Skip JSON whitespace. -/
def skipWs (l : List Char) : List Char :=
  l.dropWhile isJsonWs

/-- Hex digit value, if any. -/
def hexVal (c : Char) : Option Nat :=
  if '0' ≤ c ∧ c ≤ '9' then some (c.toNat - 48)
  else if 'a' ≤ c ∧ c ≤ 'f' then some (c.toNat - 87)
  else if 'A' ≤ c ∧ c ≤ 'F' then some (c.toNat - 55)
  else none

/-- Body of a JSON string literal (after the opening quote): returns the
decoded characters and the input after the closing quote.  `\uXXXX`
escapes outside the surrogate range decode to the corresponding scalar;
raw control characters are rejected as `JSON.parse` does. -/
def jsonStrBody : List Char → Option (List Char × List Char)
  | [] => none
  | '"' :: rest => some ([], rest)
  | '\\' :: '"' :: rest => (jsonStrBody rest).map (fun p => ('"' :: p.1, p.2))
  | '\\' :: '\\' :: rest => (jsonStrBody rest).map (fun p => ('\\' :: p.1, p.2))
  | '\\' :: '/' :: rest => (jsonStrBody rest).map (fun p => ('/' :: p.1, p.2))
  | '\\' :: 'b' :: rest => (jsonStrBody rest).map (fun p => (Char.ofNat 8 :: p.1, p.2))
  | '\\' :: 'f' :: rest => (jsonStrBody rest).map (fun p => (Char.ofNat 12 :: p.1, p.2))
  | '\\' :: 'n' :: rest => (jsonStrBody rest).map (fun p => ('\n' :: p.1, p.2))
  | '\\' :: 'r' :: rest => (jsonStrBody rest).map (fun p => ('\r' :: p.1, p.2))
  | '\\' :: 't' :: rest => (jsonStrBody rest).map (fun p => ('\t' :: p.1, p.2))
  | '\\' :: 'u' :: h1 :: h2 :: h3 :: h4 :: rest =>
    match hexVal h1, hexVal h2, hexVal h3, hexVal h4 with
    | some a, some b, some c, some d =>
      let n := ((a * 16 + b) * 16 + c) * 16 + d
      if 0xd800 ≤ n ∧ n ≤ 0xdfff then none
      else (jsonStrBody rest).map (fun p => (Char.ofNat n :: p.1, p.2))
    | _, _, _, _ => none
  | '\\' :: _ => none
  | c :: rest =>
    if c.toNat < 32 then none
    else (jsonStrBody rest).map (fun p => (c :: p.1, p.2))

/-- Numeric value of a digit string. -/
def natOfDigits (l : List Char) : Nat :=
  l.foldl (fun n c => n * 10 + (c.toNat - 48)) 0

/-- Fraction and exponent suffix of a JSON number, applied to the integer
part `i` (already negated by `neg`). -/
def jsonNumTail (neg : Bool) (i : Nat) (l : List Char) : Option (Rat × List Char) :=
  let fracStep : Option (Rat × List Char) :=
    match l with
    | '.' :: r =>
      let ds := r.takeWhile Char.isDigit
      if ds = [] then none
      else some ((i : Rat) + (natOfDigits ds : Rat) / (10 : Rat) ^ ds.length,
                 r.dropWhile Char.isDigit)
    | _ => some ((i : Rat), l)
  match fracStep with
  | none => none
  | some (base, r1) =>
    let expStep : Option (Rat × List Char) :=
      match r1 with
      | 'e' :: r2 | 'E' :: r2 =>
        let (esign, r3) : Bool × List Char :=
          match r2 with
          | '+' :: r' => (false, r')
          | '-' :: r' => (true, r')
          | _ => (false, r2)
        let ds := r3.takeWhile Char.isDigit
        if ds = [] then none
        else
          let e : Int := if esign then -(natOfDigits ds : Int) else (natOfDigits ds : Int)
          some (base * (10 : Rat) ^ e, r3.dropWhile Char.isDigit)
      | _ => some (base, r1)
    match expStep with
    | none => none
    | some (v, r4) => some ((if neg then -v else v), r4)

/-- JSON number literal (grammar of `JSON.parse`: optional minus, no
leading zeros, optional fraction and exponent). -/
def jsonNum (l : List Char) : Option (Rat × List Char) :=
  let (neg, l1) : Bool × List Char :=
    match l with
    | '-' :: r => (true, r)
    | _ => (false, l)
  match l1 with
  | '0' :: r =>
    match r with
    | c :: _ => if c.isDigit then none else jsonNumTail neg 0 r
    | [] => jsonNumTail neg 0 r
  | c :: _ =>
    if c.isDigit then
      let ds := l1.takeWhile Char.isDigit
      jsonNumTail neg (natOfDigits ds) (l1.dropWhile Char.isDigit)
    else none
  | [] => none

mutual

/-- Fuel-indexed JSON value parser (recursion depth is bounded by the
fuel; `jsonParse` supplies enough for any input). -/
def jsonVal : Nat → List Char → Option (Json × List Char)
  | 0, _ => none
  | fuel + 1, l =>
    match skipWs l with
    | 'n' :: 'u' :: 'l' :: 'l' :: r => some (.null, r)
    | 't' :: 'r' :: 'u' :: 'e' :: r => some (.bool true, r)
    | 'f' :: 'a' :: 'l' :: 's' :: 'e' :: r => some (.bool false, r)
    | '"' :: r => (jsonStrBody r).map (fun p => (.str (String.mk p.1), p.2))
    | '[' :: r =>
      (match skipWs r with
       | ']' :: r' => some (.arr [], r')
       | r' => (jsonElems fuel r').map (fun p => (.arr p.1, p.2)))
    | '{' :: r =>
      (match skipWs r with
       | '}' :: r' => some (.obj [], r')
       | r' => (jsonMembers fuel r').map (fun p => (.obj p.1, p.2)))
    | l' => (jsonNum l').map (fun p => (.num p.1, p.2))

/-- Comma-separated JSON array elements up to the closing bracket. -/
def jsonElems : Nat → List Char → Option (List Json × List Char)
  | 0, _ => none
  | fuel + 1, l =>
    match jsonVal fuel l with
    | none => none
    | some (v, r) =>
      match skipWs r with
      | ',' :: r' =>
        (match jsonElems fuel r' with
         | none => none
         | some (vs, r'') => some (v :: vs, r''))
      | ']' :: r' => some ([v], r')
      | _ => none

/-- Comma-separated JSON object members up to the closing brace. -/
def jsonMembers : Nat → List Char → Option (List (String × Json) × List Char)
  | 0, _ => none
  | fuel + 1, l =>
    match skipWs l with
    | '"' :: r =>
      (match jsonStrBody r with
       | none => none
       | some (k, r1) =>
         match skipWs r1 with
         | ':' :: r2 =>
           (match jsonVal fuel r2 with
            | none => none
            | some (v, r3) =>
              match skipWs r3 with
              | ',' :: r4 =>
                (match jsonMembers fuel r4 with
                 | none => none
                 | some (ms, r5) => some ((String.mk k, v) :: ms, r5))
              | '}' :: r4 => some ([(String.mk k, v)], r4)
              | _ => none)
         | _ => none)
    | _ => none

end

/-- Model of the host `JSON.parse` applied to the characters of the text:
`some` the parsed value, `none` when `JSON.parse` would throw. -/
def jsonParse (l : List Char) : Option Json :=
  match jsonVal (2 * l.length + 2) l with
  | some (v, r) => if skipWs r = [] then some v else none
  | none => none

/-! ## StreamRelay (`fetch`, lines 136-187 of `src/index.ts`)

The upstream byte stream is modelled at character granularity (the
source's `TextDecoder` in streaming mode already reassembles characters
split across reads).  The outbound writes `data: <json>\n\n` are
modelled by the event written. -/

/-- The client-facing event vocabulary, as serialised by `emit`:
`{type, delta}`, `{type}` and `{type, error}` objects. -/
inductive ClientEvent where
  | textDelta (delta : Json)
  | completed
  | error (err : Json)
deriving Repr

/-- JS `String.prototype.trim` on the characters of a line. -/
def trimWs (l : List Char) : List Char :=
  ((l.dropWhile Char.isWhitespace).reverse.dropWhile Char.isWhitespace).reverse

/-- JS `split("\n")` on the characters of a segment. -/
def splitNl : List Char → List (List Char)
  | [] => [[]]
  | c :: rest =>
    if c = '\n' then [] :: splitNl rest
    else
      match splitNl rest with
      | s :: ss => (c :: s) :: ss
      | [] => [[c]]

/-- One step of the line scan (lines 161-164): `event:` lines set the
event name (`slice(6).trim()`), `data:` lines append `slice(5).trim()`
to the data, joined with a line break; other lines are ignored. -/
def parseSegLine (evt : String × List Char) (line : List Char) : String × List Char :=
  if ("event:".toList).isPrefixOf line then (String.mk (trimWs (line.drop 6)), evt.2)
  else if ("data:".toList).isPrefixOf line then
    (evt.1, evt.2 ++ (if evt.2 ≠ [] then ['\n'] else []) ++ trimWs (line.drop 5))
  else evt

/-- The accumulated `data` of a raw segment.  (The scanned `event:` name
is also reconstructed by the source but never read by the filter.) -/
def segData (raw : List Char) : List Char :=
  ((splitNl raw).foldl parseSegLine ("", [])).2

/-- Upstream event names forwarded by the filter (lines 169-175). -/
def deltaType : String := "response.output_text.delta"

/-- Upstream completion event name. -/
def completedType : String := "response.completed"

/-- Upstream error event name. -/
def errorType : String := "response.error"

/-- Model of `const t = obj.type` followed by `t === "<literal>"`: the strict
string comparisons can only succeed when `type` is a string. -/
def typeTag (obj : Json) : Option String :=
  match obj.getField "type" with
  | some (.str s) => some s
  | _ => none

/-- The event filter (lines 166-179): parse the data as JSON and map the
three recognised upstream kinds to a client event; everything else —
including frames whose data fails to parse — is dropped.  (`JSON.parse`
may yield `null`, on which the member access `obj.type` throws and the
surrounding `catch` drops the frame; that coincides with the cascade
falling through, since `typeTag Json.null = none`.) -/
def mapEvent (data : List Char) : Option ClientEvent :=
  match jsonParse data with
  | none => none
  | some obj =>
    let t := typeTag obj
    if t = some deltaType ∧ truthyOpt (obj.getField "delta") then
      some (.textDelta ((obj.getField "delta").getD .null))
    else if t = some completedType then
      some .completed
    else if t = some errorType ∧ truthyOpt (obj.getField "error") then
      some (.error ((obj.getField "error").getD .null))
    else none

/-- Processing of one complete delimiter-terminated segment: scan its
lines, skip it when no data accumulated (`if (!evt.data) continue`),
otherwise run the filter. -/
def handleSeg (raw : List Char) : Option ClientEvent :=
  let d := segData raw
  if d = [] then none else mapEvent d

/-- Index of the first event delimiter, `buf.indexOf("\n\n")`. -/
def findDelim : List Char → Option Nat
  | [] => none
  | c :: rest =>
    if c = '\n' ∧ rest.head? = some '\n' then some 0
    else (findDelim rest).map (· + 1)

/-- The inner `while ((idx = buf.indexOf("\n\n")) !== -1)` loop
(lines 156-180), fuel-indexed: extract every complete segment from the
front of the buffer, emit its mapped event if any, and return the
residual buffer.  Each extraction removes at least two characters, so
`fuel = buf.length` always suffices. -/
def drainGo : Nat → List Char → List ClientEvent × List Char
  | 0, b => ([], b)
  | fuel + 1, b =>
    match findDelim b with
    | none => ([], b)
    | some i =>
      let step := drainGo fuel (b.drop (i + 2))
      ((handleSeg (b.take i)).toList ++ step.1, step.2)

/-- Drain all complete segments from the buffer. -/
def drain (b : List Char) : List ClientEvent × List Char :=
  drainGo b.length b

/-- One `reader.read()` arrival: append the chunk to the buffer and
drain (lines 151-180). -/
def relayStep (st : List ClientEvent × List Char) (chunk : List Char) :
    List ClientEvent × List Char :=
  let d := drain (st.2 ++ chunk)
  (st.1 ++ d.1, d.2)

/-- Feed a whole sequence of read chunks through the relay, starting
from the initial empty buffer (`let buf = ""`). -/
def relayFeedAll (chunks : List (List Char)) : List ClientEvent × List Char :=
  chunks.foldl relayStep ([], [])

/-- How the upstream read loop ends: a clean `done` or a thrown fault. -/
inductive UpEnd where
  | eof
  | fault (msg : String)

/-- The synthetic event emitted by the `catch` block (line 183):
`{type: "response.error", error: {message}}`. -/
def syntheticError (msg : String) : ClientEvent :=
  .error (.obj [("message", .str msg)])

/-- The whole pump (lines 148-187): the `try` loop reads chunks until
`done` or a fault, the `catch` emits one synthetic error event, and the
`finally` closes the writer exactly once.  Returns the emitted events
and the number of times the output stream is closed. -/
def pump (buf : List Char) : List (List Char) → UpEnd → List ClientEvent × Nat
  | [], .eof => ([], 1)
  | [], .fault m => ([syntheticError m], 1)
  | c :: rest, e =>
    let d := drain (buf ++ c)
    let t := pump d.2 rest e
    (d.1 ++ t.1, t.2)

/-! ## Relay lemmas -/

/-- A delimiter found in the buffer lies (with its two characters)
inside the buffer. -/
theorem findDelim_le {b : List Char} {i : Nat} (h : findDelim b = some i) :
    i + 2 ≤ b.length := by
  induction b generalizing i with
  | nil => simp [findDelim] at h
  | cons c rest ih =>
    rw [findDelim] at h
    split at h
    · rename_i hc
      cases h
      cases rest with
      | nil => simp at hc
      | cons d r => simp
    · obtain ⟨j, hj, rfl⟩ := Option.map_eq_some'.mp h
      have := ih hj
      simp only [List.length_cons]
      omega

/-- The first delimiter of the buffer is still the first delimiter after
appending more input. -/
theorem findDelim_append {b : List Char} {i : Nat} (c : List Char)
    (h : findDelim b = some i) : findDelim (b ++ c) = some i := by
  induction b generalizing i with
  | nil => simp [findDelim] at h
  | cons x rest ih =>
    rw [findDelim] at h
    rw [List.cons_append, findDelim]
    split at h
    · rename_i hc
      cases h
      rw [if_pos]
      refine ⟨hc.1, ?_⟩
      cases rest with
      | nil => simp at hc
      | cons d r => simpa using hc.2
    · rename_i hc
      obtain ⟨j, hj, rfl⟩ := Option.map_eq_some'.mp h
      have hneg : ¬(x = '\n' ∧ (rest ++ c).head? = some '\n') := by
        intro hcon
        apply hc
        refine ⟨hcon.1, ?_⟩
        cases rest with
        | nil => simp [findDelim] at hj
        | cons d r => simpa using hcon.2
      rw [if_neg hneg, ih hj]
      rfl

/-- The inner loop does not depend on the fuel, as long as the fuel
dominates half the buffer length (each iteration removes at least two
characters). -/
theorem drainGo_congr : ∀ (f₁ f₂ : Nat) (b : List Char),
    b.length ≤ 2 * f₁ → b.length ≤ 2 * f₂ → drainGo f₁ b = drainGo f₂ b := by
  intro f₁
  induction f₁ with
  | zero =>
    intro f₂ b h1 _
    have hb : b = [] := List.eq_nil_of_length_eq_zero (by omega)
    subst hb
    cases f₂ with
    | zero => rfl
    | succ f => simp [drainGo, findDelim]
  | succ f ih =>
    intro f₂ b h1 h2
    cases f₂ with
    | zero =>
      have hb : b = [] := List.eq_nil_of_length_eq_zero (by omega)
      subst hb
      simp [drainGo, findDelim]
    | succ f' =>
      rw [drainGo, drainGo]
      cases hd : findDelim b with
      | none => rfl
      | some i =>
        have hle := findDelim_le hd
        have hrec := ih f' (b.drop (i + 2))
          (by simp only [List.length_drop]; omega)
          (by simp only [List.length_drop]; omega)
        simp only [hrec]

/-- Unfolding equation for `drain` in terms of itself. -/
theorem drain_eq (b : List Char) :
    drain b =
      match findDelim b with
      | none => ([], b)
      | some i =>
        ((handleSeg (b.take i)).toList ++ (drain (b.drop (i + 2))).1,
         (drain (b.drop (i + 2))).2) := by
  cases hd : findDelim b with
  | none =>
    cases b with
    | nil => rfl
    | cons c rest =>
      rw [drain]
      simp only [List.length_cons]
      rw [drainGo, hd]
  | some i =>
    have hle := findDelim_le hd
    obtain ⟨m, hm⟩ : ∃ m, b.length = m + 1 := ⟨b.length - 1, by omega⟩
    rw [drain, hm, drainGo, hd]
    have : drainGo m (b.drop (i + 2)) = drain (b.drop (i + 2)) := by
      rw [drain]
      exact drainGo_congr m _ _
        (by simp only [List.length_drop]; omega)
        (by simp only [List.length_drop]; omega)
    simp only [this]

/-- Draining is compositional: draining `b ++ c` emits what draining `b`
emits, followed by what draining the residual of `b` extended with `c`
emits (this is what makes the relay insensitive to read-chunk
boundaries, including splits inside the delimiter). -/
theorem drain_append (b c : List Char) :
    drain (b ++ c) =
      ((drain b).1 ++ (drain ((drain b).2 ++ c)).1,
       (drain ((drain b).2 ++ c)).2) := by
  cases hd : findDelim b with
  | none =>
    have h1 : drain b = ([], b) := by rw [drain_eq, hd]
    rw [h1]
    simp
  | some i =>
    have hle := findDelim_le hd
    have hb : drain b =
        ((handleSeg (b.take i)).toList ++ (drain (b.drop (i + 2))).1,
         (drain (b.drop (i + 2))).2) := by
      rw [drain_eq, hd]
    have hbc : drain (b ++ c) =
        ((handleSeg ((b ++ c).take i)).toList ++ (drain ((b ++ c).drop (i + 2))).1,
         (drain ((b ++ c).drop (i + 2))).2) := by
      rw [drain_eq, findDelim_append c hd]
    rw [hbc, hb, List.take_append_of_le_length (by omega),
        List.drop_append_of_le_length (by omega),
        drain_append (b.drop (i + 2)) c]
    simp [List.append_assoc]
termination_by b.length
decreasing_by simp only [List.length_drop]; omega

/-- The residual buffer after draining contains no delimiter: incomplete
trailing input is retained, never emitted. -/
theorem drain_resid (b : List Char) : findDelim (drain b).2 = none := by
  cases hd : findDelim b with
  | none =>
    have h1 : drain b = ([], b) := by rw [drain_eq, hd]
    rw [h1]
    exact hd
  | some i =>
    have hle := findDelim_le hd
    have hb : (drain b).2 = (drain (b.drop (i + 2))).2 := by rw [drain_eq, hd]
    rw [hb]
    exact drain_resid (b.drop (i + 2))
termination_by b.length
decreasing_by simp only [List.length_drop]; omega

/-- The relay loop, started on a delimiter-free buffer, is equivalent to
draining the buffer extended with all remaining input at once. -/
theorem relayFeed_loop (chunks : List (List Char)) :
    ∀ (es : List ClientEvent) (buf : List Char), findDelim buf = none →
      chunks.foldl relayStep (es, buf) =
        (es ++ (drain (buf ++ chunks.flatten)).1, (drain (buf ++ chunks.flatten)).2) := by
  induction chunks with
  | nil =>
    intro es buf h
    have h1 : drain buf = ([], buf) := by rw [drain_eq, h]
    simp [h1]
  | cons c rest ih =>
    intro es buf _
    have hs : relayStep (es, buf) c = (es ++ (drain (buf ++ c)).1, (drain (buf ++ c)).2) := rfl
    rw [List.foldl_cons, hs, ih _ _ (drain_resid _), List.flatten_cons,
        ← List.append_assoc, drain_append (buf ++ c) rest.flatten]
    simp [List.append_assoc]

/-- C1: for every upstream character sequence and every way of splitting
it into successive read chunks (including splits inside the `"\n\n"`
delimiter), the relay loop emits exactly the events of processing the
whole sequence in a single read, and its final buffer holds only the
incomplete trailing input (it contains no complete, unemitted segment).
-/
theorem relay_chunking_invariant (chunks : List (List Char)) :
    relayFeedAll chunks = drain chunks.flatten ∧
    findDelim (relayFeedAll chunks).2 = none := by
  constructor
  · rw [relayFeedAll, relayFeed_loop chunks [] [] rfl]
    simp
  · rw [relayFeedAll, relayFeed_loop chunks [] [] rfl]
    simpa using drain_resid chunks.flatten

/-- The pump closes the writer exactly once, on every path. -/
theorem pump_close_count (buf : List Char) (chunks : List (List Char)) (e : UpEnd) :
    (pump buf chunks e).2 = 1 := by
  induction chunks generalizing buf with
  | nil => cases e <;> rfl
  | cons c rest ih => simpa [pump] using ih (drain (buf ++ c)).2

/-- On a read fault, the pump emits exactly the events of the fault-free
run followed by one synthetic error event. -/
theorem pump_fault_events (buf : List Char) (chunks : List (List Char)) (m : String) :
    (pump buf chunks (.fault m)).1 = (pump buf chunks .eof).1 ++ [syntheticError m] := by
  induction chunks generalizing buf with
  | nil => rfl
  | cons c rest ih => simp [pump, ih]

/-- C2 (amended): for every finite upstream input the relay closes its
output stream exactly once, and when the read raises a fault it emits
exactly one synthetic Error event carrying the fault's description, as
the final event before the close.  (On fault-free completion the relay
does not synthesise a terminal event of its own — see the
counterexample.) -/
theorem relay_close_and_fault (chunks : List (List Char)) (e : UpEnd) (m : String) :
    (pump [] chunks e).2 = 1 ∧
    (pump [] chunks (.fault m)).1 = (pump [] chunks .eof).1 ++ [syntheticError m] :=
  ⟨pump_close_count [] chunks e, pump_fault_events [] chunks m⟩

/-- C2 counterexample: on the concrete finite input with no chunks and a
clean end of stream, the relay closes once but emits no event at all —
in particular no terminal `Completed` or `Error` — refuting the claim
that every finite input ends with exactly one `Completed`/`Error`. -/
theorem relay_terminal_counterexample :
    (pump [] [] UpEnd.eof).1 = [] ∧ (pump [] [] UpEnd.eof).2 = 1 ∧
    ¬ ∃ (init : List ClientEvent) (ev : ClientEvent),
        (pump [] [] UpEnd.eof).1 = init ++ [ev] ∧
        (ev = ClientEvent.completed ∨ ∃ j, ev = ClientEvent.error j) := by
  refine ⟨rfl, rfl, ?_⟩
  rintro ⟨init, ev, h, -⟩
  have h0 : (pump [] [] UpEnd.eof).1 = [] := rfl
  rw [h0] at h
  simp at h

/-- A concrete upstream byte sequence: a recognised text-delta event, an
unrecognised event kind, then another recognised text-delta event. -/
def demoUpstream : List Char :=
  ("event: response.output_text.delta\ndata: \x7b\"type\":\"response.output_text.delta\",\"delta\":\"Hel\"\x7d\n\n"
   ++ "event: response.queue.status\ndata: \x7b\"type\":\"response.queue.status\",\"sequence_number\":3\x7d\n\n"
   ++ "data: \x7b\"type\":\"response.output_text.delta\",\"delta\":\"lo\"\x7d\n\n").toList

/-- C3: the filter forwards exactly the three recognised upstream event
kinds, each mapped 1:1 — a text-delta event with a non-empty delta
becomes `textDelta`, a completed event becomes `completed`, an error
event with a truthy error payload becomes `error` — while frames whose
data fails to parse as JSON and frames of any other kind are silently
dropped; in particular, the concrete input interleaving an unrecognised
event kind between two recognised text-delta events yields exactly the
two recognised events, in their original order. -/
theorem relay_event_filter :
    (∀ d : List Char, jsonParse d = none → mapEvent d = none) ∧
    (∀ (d : List Char) (obj : Json), jsonParse d = some obj →
       typeTag obj ≠ some deltaType → typeTag obj ≠ some completedType →
       typeTag obj ≠ some errorType → mapEvent d = none) ∧
    (∀ (d : List Char) (obj : Json) (s : String), jsonParse d = some obj →
       typeTag obj = some deltaType → obj.getField "delta" = some (.str s) →
       s ≠ "" → mapEvent d = some (.textDelta (.str s))) ∧
    (∀ (d : List Char) (obj : Json), jsonParse d = some obj →
       typeTag obj = some completedType → mapEvent d = some .completed) ∧
    (∀ (d : List Char) (obj e : Json), jsonParse d = some obj →
       typeTag obj = some errorType → obj.getField "error" = some e →
       e.truthy = true → mapEvent d = some (.error e)) ∧
    drain demoUpstream = ([.textDelta (.str "Hel"), .textDelta (.str "lo")], []) := by
  refine ⟨?_, ?_, ?_, ?_, ?_, ?_⟩
  · intro d h
    simp [mapEvent, h]
  · intro d obj h h1 h2 h3
    rw [mapEvent, h]
    dsimp only
    rw [if_neg (fun hc => h1 hc.1), if_neg h2, if_neg (fun hc => h3 hc.1)]
  · intro d obj s h ht hdel hs
    rw [mapEvent, h]
    dsimp only
    rw [if_pos ⟨ht, by simp [truthyOpt, hdel, Json.truthy, hs]⟩, hdel]
    rfl
  · intro d obj h ht
    rw [mapEvent, h]
    dsimp only
    rw [if_neg, if_pos ht]
    intro hc
    rw [ht] at hc
    exact absurd (Option.some.inj hc.1) (by decide)
  · intro d obj e h ht herr htr
    rw [mapEvent, h]
    dsimp only
    rw [if_neg, if_neg, if_pos ⟨ht, by simp [truthyOpt, herr, htr]⟩, herr]
    · rfl
    · intro hc
      rw [ht] at hc
      exact absurd (Option.some.inj hc) (by decide)
    · intro hc
      rw [ht] at hc
      exact absurd (Option.some.inj hc.1) (by decide)
  · set_option maxRecDepth 8000 in rfl

/-- Witness for C3: the filter applied to a concrete recognised
text-delta frame. -/
theorem relay_event_filter_witness :
    mapEvent ("\x7b\"type\":\"response.output_text.delta\",\"delta\":\"Hi\"\x7d".toList) =
      some (ClientEvent.textDelta (Json.str "Hi")) :=
  relay_event_filter.2.2.1 _
    (Json.obj [("type", Json.str deltaType), ("delta", Json.str "Hi")]) "Hi"
    rfl rfl rfl (by decide)

/-! ## Retrieval (`fetch`, lines 50-102) and `cosineSim` (lines 213-219)

The retrieval settings of lines 51-55.  Vector arithmetic is idealised
over `ℝ` (JS doubles in the source). -/

/-- Default key namespace restriction (line 51). -/
def KEY_PREF : String := "doc:"

/-- Page ceiling (line 52). -/
def MAX_LIST_PAGES : Nat := 12

/-- Hard cap on values fetched and scored per request (line 53). -/
def MAX_KEYS : Nat := 3000

/-- Chunks passed to the model (line 54). -/
def TOP_K : Nat := 5

/-- Relevance floor (line 55). -/
def MIN_SIM : ℚ := 1 / 10

/-- The loop body of `cosineSim` on two non-null arrays: dot product and
both squared norms are accumulated over the shorter length only, then
`dot / (Math.sqrt(na) * Math.sqrt(nb) + 1e-12)`. -/
noncomputable def cosineSimCore (a b : List ℝ) : ℝ :=
  let n := min a.length b.length
  let dot := ∑ i in Finset.range n, a.getD i 0 * b.getD i 0
  let na := ∑ i in Finset.range n, a.getD i 0 * a.getD i 0
  let nb := ∑ i in Finset.range n, b.getD i 0 * b.getD i 0
  dot / (Real.sqrt na * Real.sqrt nb + 1 / 10 ^ 12)

/-- Model of `cosineSim` (lines 213-219); `none` models a null or undefined
argument, caught by `if (!a || !b) return -1`. -/
noncomputable def cosineSim : Option (List ℝ) → Option (List ℝ) → ℝ
  | some a, some b => cosineSimCore a b
  | _, _ => -1

/-- A scored candidate (line 62): `{ text, score, id, docId }`. -/
structure Cand where
  text : Option Json
  id : Option Json
  docId : Option Json
  score : ℝ

/-- The real vector held by a JSON value, when it is an array of
numbers (the shape ingestion writes for `embedding`). -/
noncomputable def Json.asVec : Json → Option (List ℝ)
  | .arr xs => xs.mapM (fun j => match j with | .num q => some ((q : ℝ)) | _ => none)
  | _ => none

/-- The `b` argument `cosineSim` receives for `obj.embedding`: an absent
field is `undefined` and a falsy value trips the `!b` guard, both
modelled `none`.  A truthy value that is not an array of numbers makes
the JS loop arithmetic degenerate (NaN, or 0 when `b.length` is not a
number), every such score falling below the relevance floor
`MIN_SIM = 0.10` exactly as the −1 sentinel does; the model folds those
cases into `none`, which is observably equal through the score filter. -/
noncomputable def embArg : Option Json → Option (List ℝ)
  | none => none
  | some j => if j.truthy then j.asVec else none

/-- Score of a chunk, `cosineSim(queryVec, obj.embedding)` (line 83); `queryVec` is known
non-null here (guard on line 59). -/
noncomputable def chunkScore (qv : List ℝ) (e : Option Json) : ℝ :=
  cosineSim (some qv) (embArg e)

/-- One page listing: key names and the follow-up cursor (`none` models
the falsy empty/absent cursor that exits the loop). -/
structure Page where
  keys : List String
  cursor : Option String

/-- The worker's view of the KV namespace: `list` pages keys under a
prefix, `get` fetches a value (absence is a normal outcome); either call
may reject, modelled as `.error`. -/
structure StoreModel where
  list : String → Option String → Except String Page
  get : String → Except String (Option String)

/-- One key of a page slice (lines 78-86): `get` the value, skip falsy
values (`if (!v) return null`), `JSON.parse` it — a thrown parse error,
or the member access `obj.embedding` on a parsed `null`, is caught and
yields `null` — and otherwise build the scored candidate. -/
noncomputable def getAndScore (store : StoreModel) (qv : List ℝ) (k : String) :
    Except String (Option Cand) :=
  match store.get k with
  | .error e => .error e
  | .ok none => .ok none
  | .ok (some v) =>
    if v = "" then .ok none
    else
      match jsonParse v.toList with
      | none => .ok none
      | some .null => .ok none
      | some obj =>
        .ok (some { text := obj.getField "text", id := obj.getField "id",
                    docId := obj.getField "docId",
                    score := chunkScore qv (obj.getField "embedding") })

/-- Model of `Promise.all` over a batch in the `Except` monad: any rejection
aborts the batch (modelled with the first rejection in key order). -/
def mapME {α β ε : Type} (f : α → Except ε β) : List α → Except ε (List β)
  | [] => .ok []
  | x :: xs =>
    match f x with
    | .error e => .error e
    | .ok y =>
      match mapME f xs with
      | .error e => .error e
      | .ok ys => .ok (y :: ys)

/-- State returned by the pagination loop: collected candidates, number
of `list` calls made, number of keys fetched-and-scored, and the cursor
in hand when the loop stopped. -/
structure ScanOut where
  cands : List Cand
  pages : Nat
  processed : Nat
  cursor : Option String

/-- The bounded pagination loop (lines 67-91).  Each round: one `list`
call, compute `remaining = Math.max(0, MAX_KEYS - processed)` and break
when it is zero, slice the page to the remaining budget, fetch-and-score
the slice concurrently keeping the non-null results, and continue while
a cursor remains and `pages < MAX_LIST_PAGES`.  The `fuel` argument
exists only for structural recursion; the entry point supplies
`MAX_LIST_PAGES` and the loop guard keeps it positive (the fuel-exhausted
arm is unreachable under `fuel + pages = MAX_LIST_PAGES`). -/
noncomputable def scanGo (store : StoreModel) (qv : List ℝ) :
    Nat → Option String → Nat → Nat → List Cand → Except String ScanOut
  | fuel, cursor, pages, processed, acc =>
    match store.list KEY_PREF cursor with
    | .error e => .error e
    | .ok page =>
      let pages' := pages + 1
      let remaining := MAX_KEYS - processed
      if remaining = 0 then .ok ⟨acc, pages', processed, page.cursor⟩
      else
        match mapME (getAndScore store qv) (page.keys.take remaining) with
        | .error e => .error e
        | .ok batch =>
          let acc' := acc ++ batch.filterMap id
          let processed' := processed + (page.keys.take remaining).length
          match page.cursor with
          | none => .ok ⟨acc', pages', processed', none⟩
          | some cur =>
            if pages' < MAX_LIST_PAGES then
              match fuel with
              | fuel' + 1 => scanGo store qv fuel' (some cur) pages' processed' acc'
              | 0 => .ok ⟨acc', pages', processed', some cur⟩
            else .ok ⟨acc', pages', processed', some cur⟩

/-- The retrieval scan: the do-while loop entered with no cursor and
zero counters. -/
noncomputable def scan (store : StoreModel) (qv : List ℝ) : Except String ScanOut :=
  scanGo store qv MAX_LIST_PAGES none 0 0 []

/-- The sort comparator `(a, b) => b.score - a.score` as an ordering
relation: `a` may precede `b` iff `b.score ≤ a.score`.  The JS runtime's
sort is stable (ECMAScript 2019+), and two stable sorts for the same
total preorder coincide, so `List.insertionSort` with this relation is
the sorted array of line 96. -/
def candGE (a b : Cand) : Prop := b.score ≤ a.score

noncomputable instance : DecidableRel candGE :=
  fun a b => inferInstanceAs (Decidable (b.score ≤ a.score))

instance : IsTotal Cand candGE := ⟨fun a b => le_total b.score a.score⟩

instance : IsTrans Cand candGE := ⟨fun _ _ _ h1 h2 => le_trans h2 h1⟩

/-- The ranking `candidates.sort((a, b) => b.score - a.score)` followed by
`.filter(c => c.score >= MIN_SIM).slice(0, TOP_K)` (lines 96-97). -/
noncomputable def rankTop (cands : List Cand) : List Cand :=
  ((cands.insertionSort candGE).filter
    (fun c => decide ((MIN_SIM : ℝ) ≤ c.score))).take TOP_K

/-! ## The handler responses (lines 57-197, 221-233) -/

/-- Events of an `sseText(text)` response body (lines 221-231): one
text-delta frame carrying the text, one completed frame, then close. -/
def sseTextEvents (t : String) : List ClientEvent :=
  [.textDelta (.str t), .completed]

/-- Events of `sseError`, which delegates to `sseText` with an `[Error] ` text marker
(line 233). -/
def sseErrorEvents (t : String) : List ClientEvent :=
  sseTextEvents ("[Error] " ++ t)

/-- Result of the generation-service fetch (lines 108-134): a streaming
body (its read chunks and how the read ends), or a non-success status
whose text feeds the `OpenAI error:` message. -/
inductive GenOutcome where
  | httpOk (chunks : List (List Char)) (e : UpEnd)
  | httpBad (txt : String)

/-- What the handler sends back: the client events written to the
response body, and how many generation-service calls were made. -/
structure HandlerOut where
  events : List ClientEvent
  genCalls : Nat

/-- The retrieval-fault message (line 93). -/
def kvFailText : String :=
  "I can only answer from your documents, and I couldn’t access them right now."

/-- The strict-refusal message (line 101). -/
def refusalText : String :=
  "Sorry, I don’t know based on the provided documents."

/-- The handler from the embedding step onward (lines 57-197; the
method/CORS/credential guards before line 50 are platform boilerplate
outside the core).  `emb` is the result of the single `embedText` call
(`none` when it yields no vector), `gen` the result of the single
generation fetch, which is made only on the grounded path. -/
noncomputable def handle (emb : Option (List ℝ)) (store : StoreModel)
    (gen : GenOutcome) : HandlerOut :=
  match emb with
  | none => ⟨sseErrorEvents "Embedding failed (no vector).", 0⟩
  | some qv =>
    match scan store qv with
    | .error _ => ⟨sseErrorEvents kvFailText, 0⟩
    | .ok out =>
      let top := rankTop out.cands
      if top.isEmpty then ⟨sseTextEvents refusalText, 0⟩
      else
        match gen with
        | .httpBad txt => ⟨sseErrorEvents ("OpenAI error: " ++ txt), 1⟩
        | .httpOk chunks e => ⟨(pump [] chunks e).1, 1⟩

/-! ## VectorScore: truncation (C10) -/

/-- C10: when two non-null vectors differ in length, `cosineSim` reads
only the first `min(a.length, b.length)` entries of each vector — the
loop bound applies to the dot product and to both norms alike — so it
equals the similarity of the two prefixes of the shorter length: silent
truncation, no failure. -/
theorem cosineSim_truncation (a b : List ℝ) (_h : a.length ≠ b.length) :
    cosineSim (some a) (some b) =
      cosineSim (some (a.take (min a.length b.length)))
        (some (b.take (min a.length b.length))) := by
  have hgd : ∀ (l : List ℝ) (i : Nat), i < min a.length b.length →
      (l.take (min a.length b.length)).getD i 0 = l.getD i 0 := by
    intro l i hi
    rw [List.getD_eq_getElem?_getD, List.getD_eq_getElem?_getD,
        List.getElem?_take_of_lt hi]
  simp only [cosineSim, cosineSimCore, List.length_take]
  have hmin : min (min a.length b.length) a.length ⊓ min (min a.length b.length) b.length =
      min a.length b.length := by omega
  rw [hmin]
  have hd : (∑ i in Finset.range (min a.length b.length),
      (a.take (min a.length b.length)).getD i 0 *
        (b.take (min a.length b.length)).getD i 0) =
      ∑ i in Finset.range (min a.length b.length), a.getD i 0 * b.getD i 0 :=
    Finset.sum_congr rfl fun i hi => by
      rw [hgd a i (Finset.mem_range.mp hi), hgd b i (Finset.mem_range.mp hi)]
  have hna : (∑ i in Finset.range (min a.length b.length),
      (a.take (min a.length b.length)).getD i 0 *
        (a.take (min a.length b.length)).getD i 0) =
      ∑ i in Finset.range (min a.length b.length), a.getD i 0 * a.getD i 0 :=
    Finset.sum_congr rfl fun i hi => by
      rw [hgd a i (Finset.mem_range.mp hi)]
  have hnb : (∑ i in Finset.range (min a.length b.length),
      (b.take (min a.length b.length)).getD i 0 *
        (b.take (min a.length b.length)).getD i 0) =
      ∑ i in Finset.range (min a.length b.length), b.getD i 0 * b.getD i 0 :=
    Finset.sum_congr rfl fun i hi => by
      rw [hgd b i (Finset.mem_range.mp hi)]
  rw [hd, hna, hnb]

/-- Witness for C10 at two concrete vectors of different lengths. -/
theorem cosineSim_truncation_witness :
    cosineSim (some [(1 : ℝ), 2, 3]) (some [(4 : ℝ), 5]) =
      cosineSim
        (some ([(1 : ℝ), 2, 3].take (min [(1 : ℝ), 2, 3].length [(4 : ℝ), 5].length)))
        (some ([(4 : ℝ), 5].take (min [(1 : ℝ), 2, 3].length [(4 : ℝ), 5].length))) :=
  cosineSim_truncation [(1 : ℝ), 2, 3] [(4 : ℝ), 5] (by decide)

/-! ## Ranking lemmas (lines 96-97) -/

/-- Inserting a candidate places it before exactly the candidates with
score at most its own, so at any fixed score value the filtered
subsequence gains the new candidate at the front exactly when its score
is that value. -/
theorem filter_orderedInsert (v : ℝ) (a : Cand) (l : List Cand) :
    (List.orderedInsert candGE a l).filter (fun c => decide (c.score = v)) =
      if a.score = v then a :: l.filter (fun c => decide (c.score = v))
      else l.filter (fun c => decide (c.score = v)) := by
  induction l with
  | nil =>
    by_cases hav : a.score = v <;> simp [hav, List.filter_cons]
  | cons b t ih =>
    rw [List.orderedInsert]
    by_cases hab : candGE a b
    · by_cases hav : a.score = v <;> simp [hab, hav, List.filter_cons]
    · have hlt : a.score < b.score := not_le.mp hab
      by_cases hav : a.score = v
      · have hbv : b.score ≠ v := by rw [← hav]; exact ne_of_gt hlt
        simp [hab, hav, hbv, List.filter_cons, ih]
      · simp [hab, hav, List.filter_cons, ih]

/-- The stable sort preserves, at every score value, the subsequence of
candidates carrying that score: ties keep their discovery order. -/
theorem filter_insertionSort (v : ℝ) (l : List Cand) :
    (List.insertionSort candGE l).filter (fun c => decide (c.score = v)) =
      l.filter (fun c => decide (c.score = v)) := by
  induction l with
  | nil => rfl
  | cons a t ih =>
    rw [List.insertionSort, filter_orderedInsert]
    by_cases hav : a.score = v <;> simp [hav, List.filter_cons, ih]

/-- The ranked shortlist is sorted descending by score. -/
theorem rankTop_sorted (cands : List Cand) : (rankTop cands).Pairwise candGE := by
  have hs : List.Pairwise candGE (List.insertionSort candGE cands) :=
    List.sorted_insertionSort candGE cands
  exact hs.sublist ((List.take_sublist _ _).trans (List.filter_sublist _))

/-- Every candidate in the ranked shortlist clears the relevance floor. -/
theorem mem_rankTop_score {cands : List Cand} {c : Cand} (h : c ∈ rankTop cands) :
    (MIN_SIM : ℝ) ≤ c.score := by
  have h1 := List.mem_of_mem_take h
  simpa using List.of_mem_filter h1

/-- The ranked shortlist has at most `TOP_K` entries. -/
theorem rankTop_length (cands : List Cand) : (rankTop cands).length ≤ TOP_K :=
  List.length_take_le _ _

/-- Stability through filter and slice: at every admissible score value,
the shortlist's candidates of that score form an in-order prefix of the
discovered candidates of that score. -/
theorem rankTop_stable (cands : List Cand) (v : ℝ) (hv : (MIN_SIM : ℝ) ≤ v) :
    (rankTop cands).filter (fun c => decide (c.score = v)) <+:
      cands.filter (fun c => decide (c.score = v)) := by
  have h1 : (rankTop cands).filter (fun c => decide (c.score = v)) <+:
      ((List.insertionSort candGE cands).filter
        (fun c => decide ((MIN_SIM : ℝ) ≤ c.score))).filter
        (fun c => decide (c.score = v)) :=
    ( List.take_prefix _ _).filter _
  rw [List.filter_filter] at h1
  have h2 : (List.insertionSort candGE cands).filter
      (fun a => decide (a.score = v) && decide ((MIN_SIM : ℝ) ≤ a.score)) =
      (List.insertionSort candGE cands).filter (fun c => decide (c.score = v)) := by
    apply List.filter_congr
    intro a _
    by_cases hav : a.score = v
    · simp [hav, hv]
    · simp [hav]
  rw [h2, filter_insertionSort] at h1
  exact h1

/-- C7: the `RetrievalResult` is sorted descending by score, every
element's score is at least `MIN_SIM`, its length is at most `TOP_K`,
and ties are broken by original discovery order (stable sort with no
secondary key): at every admissible score value the shortlist's
candidates of that score are an in-order prefix of the discovered
candidates of that score. -/
theorem rankTop_spec (cands : List Cand) :
    (rankTop cands).Pairwise candGE ∧
    (∀ c ∈ rankTop cands, (MIN_SIM : ℝ) ≤ c.score) ∧
    (rankTop cands).length ≤ TOP_K ∧
    (∀ v : ℝ, (MIN_SIM : ℝ) ≤ v →
      (rankTop cands).filter (fun c => decide (c.score = v)) <+:
        cands.filter (fun c => decide (c.score = v))) :=
  ⟨rankTop_sorted cands, fun _ h => mem_rankTop_score h, rankTop_length cands,
   fun v hv => rankTop_stable cands v hv⟩

/-- Witness for C7, instantiating the tie-stability part at a concrete
candidate list and score value. -/
theorem rankTop_spec_witness :
    (rankTop [⟨none, none, none, (1 : ℝ)⟩]).filter
        (fun c => decide (c.score = (1 : ℝ))) <+:
      [(⟨none, none, none, (1 : ℝ)⟩ : Cand)].filter
        (fun c => decide (c.score = (1 : ℝ))) :=
  (rankTop_spec [⟨none, none, none, (1 : ℝ)⟩]).2.2.2 1 (by norm_num [MIN_SIM])

/-! ## Pagination bounds (C6) -/

/-- Invariant form of the pagination bounds: entered with the fuel
matching the remaining page budget and the processed budget respected,
every successful exit obeys both ceilings and is caused by cursor
exhaustion, the page ceiling, or the candidate budget. -/
theorem scanGo_bounds (store : StoreModel) (qv : List ℝ) :
    ∀ (fuel : Nat) (cursor : Option String) (pages processed : Nat)
      (acc : List Cand) (out : ScanOut),
      fuel + pages = MAX_LIST_PAGES → pages < MAX_LIST_PAGES →
      processed ≤ MAX_KEYS →
      scanGo store qv fuel cursor pages processed acc = .ok out →
      out.pages ≤ MAX_LIST_PAGES ∧ out.processed ≤ MAX_KEYS ∧
      (out.cursor = none ∨ out.pages = MAX_LIST_PAGES ∨ out.processed = MAX_KEYS) := by
  intro fuel
  induction fuel with
  | zero =>
    intro cursor pages processed acc out hinv hlt _ _
    exact absurd hinv (by omega)
  | succ f ih =>
    intro cursor pages processed acc out hinv hlt hproc h
    rw [scanGo] at h
    dsimp only at h
    cases hlist : store.list KEY_PREF cursor with
    | error e => rw [hlist] at h; simp at h
    | ok page =>
      rw [hlist] at h
      dsimp only at h
      by_cases hrem : MAX_KEYS - processed = 0
      · rw [if_pos hrem] at h
        injection h with h
        subst h
        refine ⟨by simp; omega, by simpa using hproc, Or.inr (Or.inr ?_)⟩
        simp
        omega
      · rw [if_neg hrem] at h
        have hslice : (page.keys.take (MAX_KEYS - processed)).length ≤
            MAX_KEYS - processed := by
          simp
        cases hbatch : mapME (getAndScore store qv) (page.keys.take (MAX_KEYS - processed)) with
        | error e => rw [hbatch] at h; simp at h
        | ok batch =>
          rw [hbatch] at h
          dsimp only at h
          cases hcur : page.cursor with
          | none =>
            rw [hcur] at h
            dsimp only at h
            injection h with h
            subst h
            exact ⟨by simp; omega, by simp; omega, Or.inl rfl⟩
          | some cur =>
            rw [hcur] at h
            dsimp only at h
            by_cases hpg : pages + 1 < MAX_LIST_PAGES
            · rw [if_pos hpg] at h
              exact ih (some cur) (pages + 1)
                (processed + (page.keys.take (MAX_KEYS - processed)).length) _ out
                (by omega) hpg (by omega) h
            · rw [if_neg hpg] at h
              injection h with h
              subst h
              exact ⟨by simp; omega, by simp; omega, Or.inr (Or.inl (by simp; omega))⟩

/-- C6: for every store behaviour and query vector, a successful
retrieval scan issues at most `MAX_LIST_PAGES` list calls and
fetches-and-scores at most `MAX_KEYS` chunk values, and it stops for one
of exactly three reasons: the cursor is exhausted, the page ceiling is
reached, or the candidate budget is reached — whichever comes first. -/
theorem scan_bounds (store : StoreModel) (qv : List ℝ) (out : ScanOut)
    (h : scan store qv = .ok out) :
    out.pages ≤ MAX_LIST_PAGES ∧ out.processed ≤ MAX_KEYS ∧
    (out.cursor = none ∨ out.pages = MAX_LIST_PAGES ∨ out.processed = MAX_KEYS) :=
  scanGo_bounds store qv MAX_LIST_PAGES none 0 0 [] out rfl
    (by norm_num [MAX_LIST_PAGES]) (by norm_num [MAX_KEYS]) h

/-- A store with no keys at all. -/
def emptyStore : StoreModel := ⟨fun _ _ => .ok ⟨[], none⟩, fun _ => .ok none⟩

/-- Witness for C6: the bounds hold after scanning the empty store. -/
theorem scan_bounds_witness :
    (⟨[], 1, 0, none⟩ : ScanOut).pages ≤ MAX_LIST_PAGES ∧
    (⟨[], 1, 0, none⟩ : ScanOut).processed ≤ MAX_KEYS ∧
    ((⟨[], 1, 0, none⟩ : ScanOut).cursor = none ∨
      (⟨[], 1, 0, none⟩ : ScanOut).pages = MAX_LIST_PAGES ∨
      (⟨[], 1, 0, none⟩ : ScanOut).processed = MAX_KEYS) :=
  scan_bounds emptyStore [] ⟨[], 1, 0, none⟩ rfl

/-! ## Retrieval fault handling (C4) -/

/-- Rejection semantics of the `Promise.all` model: a rejecting element rejects
the whole batch. -/
theorem mapME_error_of_mem {α β ε : Type} (f : α → Except ε β) :
    ∀ (l : List α) (x : α), x ∈ l → (∃ e, f x = .error e) →
      ∃ e', mapME f l = .error e' := by
  intro l
  induction l with
  | nil => intro x hx; simp at hx
  | cons y ys ih =>
    intro x hx hfe
    obtain ⟨e, he⟩ := hfe
    cases hxy : f y with
    | error e' => exact ⟨e', by simp [mapME, hxy]⟩
    | ok b =>
      rcases List.mem_cons.mp hx with rfl | hmem
      · rw [he] at hxy; cases hxy
      · obtain ⟨e'', he''⟩ := ih x hmem ⟨e, he⟩
        exact ⟨e'', by simp [mapME, hxy, he'']⟩

/-- A rejection from the very first `list` call aborts the scan. -/
theorem scan_error_of_list_error (store : StoreModel) (qv : List ℝ) (e : String)
    (h : store.list KEY_PREF none = .error e) : scan store qv = .error e := by
  rw [scan, scanGo, h]

/-- A rejection from a first-page `get` call aborts the scan. -/
theorem scan_error_of_get_error (store : StoreModel) (qv : List ℝ) (page : Page)
    (k e : String) (hlist : store.list KEY_PREF none = .ok page)
    (hk : k ∈ page.keys.take MAX_KEYS) (hget : store.get k = .error e) :
    ∃ e', scan store qv = .error e' := by
  have hga : getAndScore store qv k = .error e := by
    rw [getAndScore, hget]
  obtain ⟨e', he'⟩ :=
    mapME_error_of_mem (getAndScore store qv) (page.keys.take MAX_KEYS) k hk ⟨e, hga⟩
  refine ⟨e', ?_⟩
  rw [scan, scanGo, hlist]
  dsimp only
  rw [if_neg (by norm_num [MAX_KEYS]), Nat.sub_zero, he']

/-- C4: a rejection from `list`, or from any of the first page's
concurrent `get` calls, aborts retrieval; the handler then returns the
fixed retrieval-unavailable response with zero generation-service calls,
and that response differs from the empty-result refusal response. -/
theorem retrieval_fault_distinct :
    (∀ (qv : List ℝ) (store : StoreModel) (gen : GenOutcome) (e : String),
       scan store qv = .error e →
       handle (some qv) store gen = ⟨sseErrorEvents kvFailText, 0⟩) ∧
    (∀ (store : StoreModel) (qv : List ℝ) (e : String),
       store.list KEY_PREF none = .error e → scan store qv = .error e) ∧
    (∀ (store : StoreModel) (qv : List ℝ) (page : Page) (k e : String),
       store.list KEY_PREF none = .ok page → k ∈ page.keys.take MAX_KEYS →
       store.get k = .error e → ∃ e', scan store qv = .error e') ∧
    sseErrorEvents kvFailText ≠ sseTextEvents refusalText := by
  refine ⟨?_, scan_error_of_list_error, scan_error_of_get_error, ?_⟩
  · intro qv store gen e h
    simp [handle, h]
  · simp [sseErrorEvents, sseTextEvents, kvFailText, refusalText]

/-- A store whose `list` call always rejects. -/
def downStore : StoreModel := ⟨fun _ _ => .error "kv down", fun _ => .error "kv down"⟩

/-- Witness for C4: the failing-list store yields the fault response and
no generation call. -/
theorem retrieval_fault_distinct_witness :
    handle (some []) downStore (.httpBad "x") = ⟨sseErrorEvents kvFailText, 0⟩ :=
  retrieval_fault_distinct.1 [] downStore (.httpBad "x") "kv down" rfl

/-! ## Upstream service faults (C5) -/

/-- C5 (amended): an embedding failure, and a generation call returning
a non-success status, are each reported to the caller as a synthetic
text-delta event whose text begins `[Error] ` followed by a completed
event (the `sseError` body) — not as a protocol `error` event — and the
handler makes at most one generation call on every path (no retry path
exists). -/
theorem upstream_fault_reporting :
    (∀ (store : StoreModel) (gen : GenOutcome),
       handle none store gen = ⟨sseErrorEvents "Embedding failed (no vector).", 0⟩) ∧
    (∀ (qv : List ℝ) (store : StoreModel) (txt : String) (out : ScanOut),
       scan store qv = .ok out → rankTop out.cands ≠ [] →
       handle (some qv) store (.httpBad txt) =
         ⟨sseErrorEvents ("OpenAI error: " ++ txt), 1⟩) ∧
    (∀ (emb : Option (List ℝ)) (store : StoreModel) (gen : GenOutcome),
       (handle emb store gen).genCalls ≤ 1) := by
  refine ⟨fun _ _ => rfl, ?_, ?_⟩
  · intro qv store txt out h htop
    simp [handle, h, htop]
  · intro emb store gen
    cases emb with
    | none => simp [handle]
    | some qv =>
      cases hs : scan store qv with
      | error e => simp [handle, hs]
      | ok out =>
        by_cases ht : (rankTop out.cands).isEmpty
        · simp [handle, hs, ht]
        · cases gen with
          | httpBad txt => simp [handle, hs, ht]
          | httpOk chunks e => simp [handle, hs, ht]

/-- C5 counterexample: the embedding-failure response consists of a
text-delta event carrying "[Error] Embedding failed (no vector)." and a
completed event — it contains no protocol `error` event, refuting
"reported as an Error client event (not as any other event kind)". -/
theorem upstream_fault_counterexample :
    (handle none emptyStore (.httpBad "x")).events =
      [ClientEvent.textDelta (Json.str "[Error] Embedding failed (no vector).") ,
       ClientEvent.completed] ∧
    ∀ ev ∈ (handle none emptyStore (.httpBad "x")).events,
      ∀ j, ev ≠ ClientEvent.error j := by
  refine ⟨rfl, ?_⟩
  intro ev hev j hje
  subst hje
  have h0 : (handle none emptyStore (.httpBad "x")).events =
      [ClientEvent.textDelta (Json.str "[Error] Embedding failed (no vector).") ,
       ClientEvent.completed] := rfl
  rw [h0] at hev
  simp at hev

/-- A store holding a single well-formed chunk whose embedding equals
the query vector `[1]`. -/
def oneStore : StoreModel :=
  ⟨fun _ _ => .ok ⟨["doc:a:chunk:0"], none⟩,
   fun _ => .ok (some "\x7b\"text\":\"t\",\"embedding\":[1]\x7d")⟩

/-- The candidate the scan of `oneStore` discovers. -/
noncomputable def oneCand : Cand :=
  ⟨some (.str "t"), none, none, chunkScore [(1 : ℝ)] (some (.arr [.num 1]))⟩

/-- Witness for C5: on a grounded request, a non-success generation
status yields the `OpenAI error:` response with exactly one generation
call. -/
theorem upstream_fault_reporting_witness :
    handle (some [(1 : ℝ)]) oneStore (.httpBad "boom") =
      ⟨sseErrorEvents ("OpenAI error: " ++ "boom"), 1⟩ := by
  have hscore : (MIN_SIM : ℝ) ≤ oneCand.score := by
    have hv : Json.asVec (.arr [.num 1]) = some [((1 : ℚ) : ℝ)] := rfl
    show (MIN_SIM : ℝ) ≤ chunkScore [(1 : ℝ)] (some (.arr [.num 1]))
    rw [chunkScore]
    rw [show embArg (some (.arr [.num 1])) = some [((1 : ℚ) : ℝ)] by
      rw [embArg]; simp [Json.truthy, hv]]
    rw [show cosineSim (some [(1 : ℝ)]) (some [((1 : ℚ) : ℝ)]) =
        cosineSimCore [(1 : ℝ)] [((1 : ℚ) : ℝ)] from rfl]
    rw [cosineSimCore]
    simp [Finset.sum_range_one, Real.sqrt_one]
    norm_num [MIN_SIM]
  have htop : rankTop [oneCand] = [oneCand] := by
    rw [rankTop]
    rw [show List.insertionSort candGE [oneCand] = [oneCand] from rfl]
    rw [List.filter_cons, if_pos (by simpa using hscore)]
    rfl
  apply upstream_fault_reporting.2.1 [(1 : ℝ)] oneStore "boom" ⟨[oneCand], 1, 1, none⟩ rfl
  simp [htop]

/-! ## Data-quality noise (C8) -/

/-- C8: a stored value that fails `JSON.parse` is skipped outright and
contributes no candidate; a value whose `embedding` field is missing is
coerced only to the sentinel score −1, and since every member of the
ranked shortlist clears `MIN_SIM` while −1 lies strictly below it, such
a value can never appear in or above the ranked shortlist. -/
theorem malformed_values_excluded :
    (∀ (store : StoreModel) (qv : List ℝ) (k v : String),
       store.get k = .ok (some v) → v ≠ "" → jsonParse v.toList = none →
       getAndScore store qv k = .ok none) ∧
    (∀ qv : List ℝ, chunkScore qv none = -1) ∧
    (∀ (cands : List Cand) (c : Cand), c ∈ rankTop cands → (MIN_SIM : ℝ) ≤ c.score) ∧
    (-1 : ℝ) < (MIN_SIM : ℝ) := by
  refine ⟨?_, fun _ => rfl, fun _ _ h => mem_rankTop_score h, by norm_num [MIN_SIM]⟩
  intro store qv k v hget hne hparse
  have hp : jsonParse v.data = none := hparse
  simp [getAndScore, hget, hne, hp]

/-- A store with one unparsable value. -/
def noiseStore : StoreModel :=
  ⟨fun _ _ => .ok ⟨["doc:a"], none⟩, fun _ => .ok (some "not json")⟩

/-- Witness for C8: the unparsable value is skipped, and the missing
embedding scores the sentinel. -/
theorem malformed_values_excluded_witness :
    getAndScore noiseStore [] "doc:a" = .ok none ∧ chunkScore [] none = -1 :=
  ⟨malformed_values_excluded.1 noiseStore [] "doc:a" "not json" rfl (by decide) rfl,
   malformed_values_excluded.2.1 []⟩

/-! ## Strict refusal (C9) -/

/-- C9: whenever the scan succeeds and the ranked shortlist is empty
(empty store, or every candidate below `MIN_SIM`), the handler returns
the fixed insufficient-grounding refusal response — never the grounded
streaming response — and makes no generation-service call. -/
theorem empty_retrieval_refuses (qv : List ℝ) (store : StoreModel)
    (gen : GenOutcome) (out : ScanOut) (h : scan store qv = .ok out)
    (h2 : rankTop out.cands = []) :
    handle (some qv) store gen = ⟨sseTextEvents refusalText, 0⟩ := by
  simp [handle, h, h2]

/-- Witness for C9: the empty store yields the refusal response with no
generation call. -/
theorem empty_retrieval_refuses_witness :
    handle (some []) emptyStore (.httpBad "x") = ⟨sseTextEvents refusalText, 0⟩ :=
  empty_retrieval_refuses [] emptyStore (.httpBad "x") ⟨[], 1, 0, none⟩ rfl rfl

end Rag
